import Mathlib

/-!
# WebServer (src/main.go): shallow embedding and verification

The program is a small HTTP server over an in-memory post store:

* data model: `Post` (struct with `ID : int`, `Body : string`), global state
  `posts : map[int]Post` and `nextID : int` starting at 1 (lines 16-26);
* handlers: `handleGetPosts`, `handlePostPosts`, `handleGetPost`,
  `handleDeletePost` (lines 74-160), routed by `postsHandler` (lines 43-52)
  and `postHandler` (lines 55-70).

The embedding models Go's `map[int]Post` as an association list with unique
keys (`mapGet` / `mapSet` / `mapDelete`), Go's `int` as unbounded `Int`
(overflow of the id counter is out of scope), JSON values as an inductive
`Json` AST, and `encoding/json`'s marshalling of the `Post` struct
(`json:"id"`, `json:"body"` tags) as `marshalPost` / `unmarshalPost`.
Every handler is a pure function from the store (plus request data) to a
`Response` and a new store; the mutex serialises handler executions, so a
run of the server is a fold of handler applications over a list of
operations (`run`).
-/

set_option autoImplicit false

namespace WebServer

/-- JSON values (integers only: the payloads of this server carry an integer
id and a string body; non-integer numbers never arise in its own output and
would fail to unmarshal into the `int` field anyway, so they are folded into
the catch-all constructors' absence). -/
inductive Json where
  | null : Json
  | bool (b : Bool) : Json
  | num (n : Int) : Json
  | str (s : String) : Json
  | arr (elems : List Json) : Json
  | obj (fields : List (String × Json)) : Json

/-- The `Post` struct (src/main.go lines 16-19): `ID int`, `Body string`. -/
structure Post where
  id : Int
  body : String
deriving DecidableEq, Repr

/-- The global server state (src/main.go lines 22-26): the `posts` map and
the `nextID` counter. The mutex is modelled by running handlers one at a
time. -/
structure Store where
  records : List (Int × Post)
  nextID : Int
deriving DecidableEq, Repr

/-- Initial state: empty map, `nextID = 1` (src/main.go lines 23-24). -/
def Store.init : Store := ⟨[], 1⟩

/-- Map lookup: `posts[id]` with its `ok` flag encoded as `Option`. -/
def mapGet : List (Int × Post) → Int → Option Post
  | [], _ => none
  | kv :: rest, i => if kv.1 = i then some kv.2 else mapGet rest i

/-- Map key removal: `delete(posts, id)`. -/
def mapDelete : List (Int × Post) → Int → List (Int × Post)
  | [], _ => []
  | kv :: rest, i => if kv.1 = i then mapDelete rest i else kv :: mapDelete rest i

/-- Map assignment: `posts[k] = v` (replaces any entry at key `k`). -/
def mapSet (m : List (Int × Post)) (k : Int) (v : Post) : List (Int × Post) :=
  (k, v) :: mapDelete m k

/-- Keys of the map. -/
def keys (m : List (Int × Post)) : List Int := m.map Prod.fst

/-- The snapshot slice built by `handleGetPosts` (src/main.go lines 88-91):
all values of the map, in iteration order. -/
def snapshot (s : Store) : List Post := s.records.map Prod.snd

/-- A Go slice of posts: `none` is a nil slice (which `encoding/json`
renders as `null`), `some l` an allocated slice (rendered as an array). -/
def encodePostSlice : Option (List Post) → Json
  | none => Json.null
  | some l => Json.arr (l.map fun p => Json.obj [("id", Json.num p.id), ("body", Json.str p.body)])

/-- `encoding/json` marshalling of a `Post` with its field tags:
`{"id": <integer>, "body": <string>}`. -/
def marshalPost (p : Post) : Json :=
  Json.obj [("id", Json.num p.id), ("body", Json.str p.body)]

/-- Field lookup in a JSON object as Go's decoder performs it: when a key is
duplicated the last occurrence wins. (Go additionally accepts
case-insensitive key matches; only exact-case keys are modelled.) -/
def jField : List (String × Json) → String → Option Json
  | [], _ => none
  | (k, v) :: rest, key =>
    match jField rest key with
    | some r => some r
    | none => if k = key then some v else none

/-- Decoding the `"id"` field into the `ID int` struct field: a missing
field or JSON `null` leaves the zero value `0`; a number is taken as is;
any other JSON type is an unmarshal error. -/
def decodeIdField : Option Json → Option Int
  | none => some 0
  | some Json.null => some 0
  | some (Json.num n) => some n
  | some _ => none

/-- Decoding the `"body"` field into the `Body string` struct field: a
missing field or JSON `null` leaves the zero value `""`; a string is taken
as is; any other JSON type is an unmarshal error. -/
def decodeBodyField : Option Json → Option String
  | none => some ""
  | some Json.null => some ""
  | some (Json.str s) => some s
  | some _ => none

/-- `json.Unmarshal(body, &p)` for `var p Post` (src/main.go line 112):
JSON `null` is a no-op (leaving the zero value), an object populates the
tagged fields, anything else is an error. -/
def unmarshalPost : Json → Option Post
  | Json.null => some ⟨0, ""⟩
  | Json.obj fields =>
    match decodeIdField (jField fields "id"), decodeBodyField (jField fields "body") with
    | some i, some b => some ⟨i, b⟩
    | _, _ => none
  | _ => none

/-- The body of a POST request as the handler observes it: `readError` is a
failure of `ioutil.ReadAll` (line 104); `bytes none` is a byte string that
is not well-formed JSON (so `json.Unmarshal` fails with a syntax error);
`bytes (some j)` is a byte string parsing to the JSON value `j`. -/
inductive Body where
  | readError : Body
  | bytes (j : Option Json) : Body

/-- What a handler writes to the `http.ResponseWriter`. -/
inductive RespBody where
  | empty : RespBody
  | text (s : String) : RespBody
  | json (j : Json) : RespBody

/-- An HTTP response: status code, Content-Type header if set, body. -/
structure Response where
  status : Nat
  contentType : Option String
  body : RespBody

/-- Content type written by `http.Error`. -/
def plainCT : String := "text/plain; charset=utf-8"

/-- Content type of the JSON responses. -/
def jsonCT : String := "application/json"

/-- `handleGetPosts` (src/main.go lines 74-97): copies the map's values
into a freshly allocated slice (`make([]Post, 0, len(posts))`, hence never
a nil slice) and encodes it with status 200. -/
def handleGetPosts (s : Store) : Response × Store :=
  (⟨200, some jsonCT, RespBody.json (encodePostSlice (some (snapshot s)))⟩, s)

/-- `Store.insert`: the critical section of `handlePostPosts`
(src/main.go lines 122-124): `p.ID = nextID; nextID++; posts[p.ID] = p`.
Takes the unmarshalled struct `p` and returns the stored post and the new
state. -/
def Store.insert (s : Store) (p0 : Post) : Post × Store :=
  let p : Post := { p0 with id := s.nextID }
  (p, ⟨mapSet s.records p.id p, s.nextID + 1⟩)

/-- `handlePostPosts` (src/main.go lines 99-129): read the body (500 on
read error), unmarshal it (400 on error), insert, reply 201 with the
created post. -/
def handlePostPosts (s : Store) (b : Body) : Response × Store :=
  match b with
  | Body.readError => (⟨500, some plainCT, RespBody.text "Error reading request body"⟩, s)
  | Body.bytes none => (⟨400, some plainCT, RespBody.text "Error parsing request body"⟩, s)
  | Body.bytes (some j) =>
    match unmarshalPost j with
    | none => (⟨400, some plainCT, RespBody.text "Error parsing request body"⟩, s)
    | some p =>
      let pr := Store.insert s p
      (⟨201, some jsonCT, RespBody.json (marshalPost pr.1)⟩, pr.2)

/-- `handleGetPost` (src/main.go lines 131-143): 404 when the id is absent,
otherwise 200 with the post. -/
def handleGetPost (s : Store) (id : Int) : Response × Store :=
  match mapGet s.records id with
  | none => (⟨404, some plainCT, RespBody.text "Post not found"⟩, s)
  | some p => (⟨200, some jsonCT, RespBody.json (marshalPost p)⟩, s)

/-- `handleDeletePost` (src/main.go lines 145-160): 404 when the id is
absent, otherwise remove it and reply 200 with an empty body. -/
def handleDeletePost (s : Store) (id : Int) : Response × Store :=
  match mapGet s.records id with
  | none => (⟨404, some plainCT, RespBody.text "Post not found"⟩, s)
  | some _ => (⟨200, none, RespBody.empty⟩, ⟨mapDelete s.records id, s.nextID⟩)

/-- Decimal digit value of a character. -/
def digitVal (c : Char) : Option Nat :=
  if c.isDigit then some (c.toNat - 48) else none

/-- Accumulate decimal digits; fails on any non-digit. -/
def parseDigits : List Char → Nat → Option Nat
  | [], acc => some acc
  | c :: cs, acc =>
    match digitVal c with
    | some d => parseDigits cs (acc * 10 + d)
    | none => none

/-- `strconv.Atoi`: optional sign then at least one decimal digit, nothing
else (overflow of 64-bit int is out of scope). -/
def atoi (s : String) : Option Int :=
  match s.toList with
  | [] => none
  | '+' :: cs => if cs = [] then none else (parseDigits cs 0).map Int.ofNat
  | '-' :: cs => if cs = [] then none else (parseDigits cs 0).map fun n => -(Int.ofNat n)
  | cs => (parseDigits cs 0).map Int.ofNat

/-- `postsHandler` (src/main.go lines 43-52): dispatch on the method for
`/posts`; anything but GET or POST is 405. -/
def postsHandler (s : Store) (method : String) (b : Body) : Response × Store :=
  if method = "GET" then handleGetPosts s
  else if method = "POST" then handlePostPosts s b
  else (⟨405, some plainCT, RespBody.text "Method not allowed"⟩, s)

/-- `postHandler` (src/main.go lines 55-70): parse the path segment after
`/posts/` with `strconv.Atoi` (400 on failure), then dispatch on the
method; anything but GET or DELETE is 405. -/
def postHandler (s : Store) (method : String) (idSegment : String) : Response × Store :=
  match atoi idSegment with
  | none => (⟨400, some plainCT, RespBody.text "Invalid post ID"⟩, s)
  | some id =>
    if method = "GET" then handleGetPost s id
    else if method = "DELETE" then handleDeletePost s id
    else (⟨405, some plainCT, RespBody.text "Method not allowed"⟩, s)

/-- A store operation, as dispatched by the routers: List, Insert (with the
request body), Get, Delete. -/
inductive Op where
  | getAll : Op
  | post (b : Body) : Op
  | getOne (i : Int) : Op
  | del (i : Int) : Op

/-- Apply one operation to the store (the mutex makes each handler
execution atomic with respect to the store). -/
def applyOp (s : Store) : Op → Response × Store
  | Op.getAll => handleGetPosts s
  | Op.post b => handlePostPosts s b
  | Op.getOne i => handleGetPost s i
  | Op.del i => handleDeletePost s i

/-- Run a sequence of operations from a state. -/
def run (s : Store) : List Op → Store
  | [] => s
  | op :: ops => run (applyOp s op).2 ops

/-- The posts created by one operation: a successful POST creates exactly
the post returned in its 201 response, every other operation creates
none. -/
def opInserted (s : Store) : Op → List Post
  | Op.post (Body.bytes (some j)) =>
    match unmarshalPost j with
    | some p => [(Store.insert s p).1]
    | none => []
  | _ => []

/-- All posts created along a run, in order. -/
def insertedPosts (s : Store) : List Op → List Post
  | [] => []
  | op :: ops => opInserted s op ++ insertedPosts (applyOp s op).2 ops

/-- The ids assigned along a run, in order. -/
def assignedIds (s : Store) (ops : List Op) : List Int :=
  (insertedPosts s ops).map Post.id

/-- Number of successful Inserts along a run. -/
def numInserts (s : Store) (ops : List Op) : Nat :=
  (insertedPosts s ops).length

/-- Whether one operation is a successful Delete (1) or not (0). -/
def opDeleted (s : Store) : Op → Nat
  | Op.del i => if (mapGet s.records i).isSome then 1 else 0
  | _ => 0

/-- Number of successful Deletes along a run. -/
def numDeletes (s : Store) : List Op → Nat
  | [] => 0
  | op :: ops => opDeleted s op + numDeletes (applyOp s op).2 ops

/-! ## Map lemmas -/

theorem mapGet_mapSet_self (m : List (Int × Post)) (k : Int) (v : Post) :
    mapGet (mapSet m k v) k = some v := by
  simp [mapSet, mapGet]

theorem mapDelete_sublist (m : List (Int × Post)) (k : Int) :
    List.Sublist (mapDelete m k) m := by
  induction m with
  | nil => simp [mapDelete]
  | cons kv rest ih =>
    by_cases hk : kv.1 = k
    · rw [mapDelete, if_pos hk]
      exact ih.cons kv
    · rw [mapDelete, if_neg hk]
      exact ih.cons₂ kv

theorem mapGet_mapDelete_self (m : List (Int × Post)) (k : Int) :
    mapGet (mapDelete m k) k = none := by
  induction m with
  | nil => simp [mapDelete, mapGet]
  | cons kv rest ih =>
    by_cases hk : kv.1 = k
    · rw [mapDelete, if_pos hk]; exact ih
    · rw [mapDelete, if_neg hk, mapGet, if_neg hk]; exact ih

theorem mapGet_isSome_iff (m : List (Int × Post)) (i : Int) :
    (mapGet m i).isSome ↔ i ∈ keys m := by
  induction m with
  | nil => simp [mapGet, keys]
  | cons kv rest ih =>
    by_cases hk : kv.1 = i
    · simp [mapGet, keys, hk]
    · rw [mapGet, if_neg hk]
      simp only [keys, List.map_cons, List.mem_cons] at ih ⊢
      constructor
      · intro h; exact Or.inr (ih.1 h)
      · intro h
        rcases h with h | h
        · exact absurd h.symm hk
        · exact ih.2 h

theorem mapDelete_of_not_mem (m : List (Int × Post)) (i : Int)
    (h : i ∉ keys m) : mapDelete m i = m := by
  induction m with
  | nil => simp [mapDelete]
  | cons kv rest ih =>
    simp only [keys, List.map_cons, List.mem_cons, not_or] at h
    rw [mapDelete, if_neg (fun he => h.1 he.symm)]
    rw [ih (by simpa [keys] using h.2)]

theorem length_mapDelete_of_mem (m : List (Int × Post)) (i : Int)
    (hnd : (keys m).Nodup) (hmem : i ∈ keys m) :
    (mapDelete m i).length + 1 = m.length := by
  induction m with
  | nil => simp [keys] at hmem
  | cons kv rest ih =>
    simp only [keys, List.map_cons, List.nodup_cons] at hnd
    by_cases hk : kv.1 = i
    · rw [mapDelete, if_pos hk]
      rw [mapDelete_of_not_mem rest i (by rw [← hk]; exact hnd.1)]
      simp
    · simp only [keys, List.map_cons, List.mem_cons] at hmem
      rcases hmem with hmem | hmem
      · exact absurd hmem.symm hk
      · rw [mapDelete, if_neg hk]
        simp only [List.length_cons]
        rw [← ih hnd.2 hmem]

theorem mem_mapDelete (m : List (Int × Post)) (i : Int) {kv : Int × Post}
    (h : kv ∈ mapDelete m i) : kv ∈ m :=
  (mapDelete_sublist m i).subset h

theorem mem_mapSet (m : List (Int × Post)) (k : Int) (v : Post) {kv : Int × Post}
    (h : kv ∈ mapSet m k v) : kv = (k, v) ∨ kv ∈ m := by
  rcases List.mem_cons.1 h with h | h
  · exact Or.inl h
  · exact Or.inr (mem_mapDelete m k h)

theorem keys_nodup_mapDelete (m : List (Int × Post)) (i : Int)
    (h : (keys m).Nodup) : (keys (mapDelete m i)).Nodup :=
  h.sublist ((mapDelete_sublist m i).map Prod.fst)

theorem not_mem_keys_mapDelete (m : List (Int × Post)) (k : Int) :
    k ∉ keys (mapDelete m k) := by
  intro hmem
  have := (mapGet_isSome_iff (mapDelete m k) k).2 hmem
  rw [mapGet_mapDelete_self] at this
  simp at this

theorem keys_nodup_mapSet (m : List (Int × Post)) (k : Int) (v : Post)
    (h : (keys m).Nodup) : (keys (mapSet m k v)).Nodup := by
  rw [mapSet, keys, List.map_cons]
  exact List.nodup_cons.2 ⟨not_mem_keys_mapDelete m k, keys_nodup_mapDelete m k h⟩

/-! ## The store invariant -/

/-- The documented store invariant: every key equals the id of its record,
every stored id is below `nextID`, and map keys are unique. -/
def Inv (s : Store) : Prop :=
  (∀ kv ∈ s.records, kv.1 = kv.2.id ∧ kv.2.id < s.nextID) ∧ (keys s.records).Nodup

theorem inv_init : Inv Store.init := by
  constructor
  · intro kv hkv; simp [Store.init] at hkv
  · simp [Store.init, keys]

theorem nextID_not_mem_keys (s : Store) (h : Inv s) :
    s.nextID ∉ keys s.records := by
  intro hmem
  rw [keys, List.mem_map] at hmem
  obtain ⟨kv, hkv, hfst⟩ := hmem
  obtain ⟨h1, h2⟩ := h.1 kv hkv
  omega

theorem inv_insert (s : Store) (p0 : Post) (h : Inv s) :
    Inv (Store.insert s p0).2 := by
  constructor
  · intro kv hkv
    rcases mem_mapSet s.records s.nextID ⟨s.nextID, p0.body⟩ hkv with rfl | hkv'
    · exact ⟨rfl, by simp [Store.insert]⟩
    · obtain ⟨h1, h2⟩ := h.1 kv hkv'
      exact ⟨h1, by simp [Store.insert]; omega⟩
  · exact keys_nodup_mapSet s.records s.nextID _ h.2

theorem insert_records_length (s : Store) (p0 : Post) (h : Inv s) :
    (Store.insert s p0).2.records.length = s.records.length + 1 := by
  show (mapSet s.records s.nextID _).length = _
  rw [mapSet, List.length_cons, mapDelete_of_not_mem s.records s.nextID (nextID_not_mem_keys s h)]

/-! ## Step shape: every operation either leaves the store unchanged,
performs one insert, or performs one delete -/

theorem step_shape (s : Store) (op : Op) :
    ((applyOp s op).2 = s ∧ opInserted s op = [] ∧ opDeleted s op = 0) ∨
    (∃ p0, (applyOp s op).2 = (Store.insert s p0).2 ∧
      opInserted s op = [(Store.insert s p0).1] ∧ opDeleted s op = 0) ∨
    (∃ i, i ∈ keys s.records ∧
      (applyOp s op).2 = ⟨mapDelete s.records i, s.nextID⟩ ∧
      opInserted s op = [] ∧ opDeleted s op = 1) := by
  cases op with
  | getAll => exact Or.inl ⟨rfl, rfl, rfl⟩
  | post b =>
    cases b with
    | readError => exact Or.inl ⟨rfl, rfl, rfl⟩
    | bytes j =>
      cases j with
      | none => exact Or.inl ⟨rfl, rfl, rfl⟩
      | some jj =>
        cases hu : unmarshalPost jj with
        | none =>
          refine Or.inl ⟨?_, ?_, rfl⟩
          · simp [applyOp, handlePostPosts, hu]
          · simp [opInserted, hu]
        | some p =>
          refine Or.inr (Or.inl ⟨p, ?_, ?_, rfl⟩)
          · simp [applyOp, handlePostPosts, hu]
          · simp [opInserted, hu]
  | getOne i =>
    cases hg : mapGet s.records i with
    | none => exact Or.inl ⟨by simp [applyOp, handleGetPost, hg], rfl, rfl⟩
    | some p => exact Or.inl ⟨by simp [applyOp, handleGetPost, hg], rfl, rfl⟩
  | del i =>
    cases hg : mapGet s.records i with
    | none =>
      refine Or.inl ⟨by simp [applyOp, handleDeletePost, hg], rfl, ?_⟩
      simp [opDeleted, hg]
    | some p =>
      refine Or.inr (Or.inr ⟨i, ?_, ?_, rfl, ?_⟩)
      · exact (mapGet_isSome_iff s.records i).1 (by simp [hg])
      · simp [applyOp, handleDeletePost, hg]
      · simp [opDeleted, hg]

theorem inv_applyOp (s : Store) (op : Op) (h : Inv s) : Inv (applyOp s op).2 := by
  rcases step_shape s op with ⟨he, -, -⟩ | ⟨p0, he, -, -⟩ | ⟨i, -, he, -, -⟩
  · rw [he]; exact h
  · rw [he]; exact inv_insert s p0 h
  · rw [he]
    constructor
    · intro kv hkv
      exact h.1 kv (mem_mapDelete s.records i hkv)
    · exact keys_nodup_mapDelete s.records i h.2

theorem nextID_le_applyOp (s : Store) (op : Op) :
    s.nextID ≤ (applyOp s op).2.nextID := by
  rcases step_shape s op with ⟨he, -, -⟩ | ⟨p0, he, -, -⟩ | ⟨i, -, he, -, -⟩
  · rw [he]
  · rw [he]; show s.nextID ≤ s.nextID + 1; omega
  · rw [he]

theorem inv_run (ops : List Op) : ∀ s : Store, Inv s → Inv (run s ops) := by
  induction ops with
  | nil => intro s h; exact h
  | cons op ops ih => intro s h; exact ih _ (inv_applyOp s op h)

theorem nextID_le_run (ops : List Op) : ∀ s : Store, s.nextID ≤ (run s ops).nextID := by
  induction ops with
  | nil => intro s; exact le_refl _
  | cons op ops ih =>
    intro s
    exact le_trans (nextID_le_applyOp s op) (ih (applyOp s op).2)

/-! ## Run-level lemmas -/

theorem count_run (ops : List Op) : ∀ s : Store, Inv s →
    (run s ops).records.length + numDeletes s ops
      = s.records.length + numInserts s ops := by
  induction ops with
  | nil =>
    intro s _
    simp [run, numDeletes, numInserts, insertedPosts]
  | cons op ops ih =>
    intro s h
    have hIH := ih (applyOp s op).2 (inv_applyOp s op h)
    have hrun : run s (op :: ops) = run (applyOp s op).2 ops := rfl
    have hnum : numDeletes s (op :: ops) = opDeleted s op + numDeletes (applyOp s op).2 ops := rfl
    have hins : numInserts s (op :: ops)
        = (opInserted s op).length + numInserts (applyOp s op).2 ops := by
      simp [numInserts, insertedPosts]
    rcases step_shape s op with ⟨he, hi, hd⟩ | ⟨p0, he, hi, hd⟩ | ⟨i, hmem, he, hi, hd⟩
    · rw [he] at hIH
      rw [hrun, hnum, hins, hi, hd, he]
      simp only [List.length_nil]
      omega
    · rw [he] at hIH
      rw [hrun, hnum, hins, hi, hd, he]
      have hlen := insert_records_length s p0 h
      simp only [List.length_singleton]
      omega
    · rw [he] at hIH
      rw [hrun, hnum, hins, hi, hd, he]
      have hlen := length_mapDelete_of_mem s.records i h.2 hmem
      simp only [List.length_nil]
      dsimp only at hIH ⊢
      omega

theorem mem_snapshot_insert (s : Store) (p0 : Post) {p : Post}
    (h : p ∈ snapshot (Store.insert s p0).2) :
    p = (Store.insert s p0).1 ∨ p ∈ snapshot s := by
  rcases List.mem_map.1 h with ⟨kv, hkv, rfl⟩
  rcases mem_mapSet s.records s.nextID _ hkv with rfl | hkv'
  · exact Or.inl rfl
  · exact Or.inr (List.mem_map.2 ⟨kv, hkv', rfl⟩)

theorem mem_snapshot_delete {m : List (Int × Post)} (i : Int) {p : Post}
    (h : p ∈ (mapDelete m i).map Prod.snd) : p ∈ m.map Prod.snd :=
  ((mapDelete_sublist m i).map Prod.snd).subset h

theorem snapshot_run_sub (ops : List Op) : ∀ s : Store, ∀ p ∈ snapshot (run s ops),
    p ∈ snapshot s ∨ p ∈ insertedPosts s ops := by
  induction ops with
  | nil =>
    intro s p hp
    exact Or.inl hp
  | cons op ops ih =>
    intro s p hp
    have hins : insertedPosts s (op :: ops)
        = opInserted s op ++ insertedPosts (applyOp s op).2 ops := rfl
    rcases ih (applyOp s op).2 p hp with hmem | hmem
    · rcases step_shape s op with ⟨he, -, -⟩ | ⟨p0, he, hi, -⟩ | ⟨i, -, he, -, -⟩
      · rw [he] at hmem
        exact Or.inl hmem
      · rw [he] at hmem
        rcases mem_snapshot_insert s p0 hmem with heq | hmem'
        · refine Or.inr ?_
          rw [hins, hi, heq]
          exact List.mem_append_left _ (List.mem_singleton.2 rfl)
        · exact Or.inl hmem'
      · rw [he] at hmem
        exact Or.inl (mem_snapshot_delete i hmem)
    · refine Or.inr ?_
      rw [hins]
      exact List.mem_append_right _ hmem

theorem insertedPosts_lb (ops : List Op) : ∀ s : Store, ∀ p ∈ insertedPosts s ops,
    s.nextID ≤ p.id := by
  induction ops with
  | nil => intro s p hp; simp [insertedPosts] at hp
  | cons op ops ih =>
    intro s p hp
    simp only [insertedPosts] at hp
    rcases List.mem_append.1 hp with h1 | h2
    · rcases step_shape s op with ⟨-, hi, -⟩ | ⟨p0, -, hi, -⟩ | ⟨-, -, -, hi, -⟩
      · rw [hi] at h1; cases h1
      · rw [hi] at h1
        rcases List.mem_singleton.1 h1 with rfl
        exact le_refl _
      · rw [hi] at h1; cases h1
    · have h3 := ih (applyOp s op).2 p h2
      have h4 := nextID_le_applyOp s op
      omega

theorem insertedPosts_pairwise (ops : List Op) : ∀ s : Store,
    List.Pairwise (fun p q : Post => p.id < q.id) (insertedPosts s ops) := by
  induction ops with
  | nil => intro s; simp [insertedPosts]
  | cons op ops ih =>
    intro s
    simp only [insertedPosts]
    rw [List.pairwise_append]
    refine ⟨?_, ih _, ?_⟩
    · rcases step_shape s op with ⟨-, hi, -⟩ | ⟨p0, -, hi, -⟩ | ⟨-, -, -, hi, -⟩ <;>
        rw [hi] <;> simp
    · intro a ha b hb
      rcases step_shape s op with ⟨-, hi, -⟩ | ⟨p0, he, hi, -⟩ | ⟨-, -, -, hi, -⟩
      · rw [hi] at ha; cases ha
      · rw [hi] at ha
        rcases List.mem_singleton.1 ha with rfl
        have hb' := insertedPosts_lb ops (applyOp s op).2 b hb
        rw [he] at hb'
        have h4 : (Store.insert s p0).2.nextID = s.nextID + 1 := rfl
        have h5 : (Store.insert s p0).1.id = s.nextID := rfl
        show (Store.insert s p0).1.id < b.id
        omega
      · rw [hi] at ha; cases ha

theorem insertedPosts_ub (ops : List Op) : ∀ s : Store, ∀ p ∈ insertedPosts s ops,
    p.id < (run s ops).nextID := by
  induction ops with
  | nil => intro s p hp; simp [insertedPosts] at hp
  | cons op ops ih =>
    intro s p hp
    simp only [insertedPosts] at hp
    have hrun : run s (op :: ops) = run (applyOp s op).2 ops := rfl
    rcases List.mem_append.1 hp with h1 | h2
    · rcases step_shape s op with ⟨-, hi, -⟩ | ⟨p0, he, hi, -⟩ | ⟨-, -, -, hi, -⟩
      · rw [hi] at h1; cases h1
      · rw [hi] at h1
        rcases List.mem_singleton.1 h1 with rfl
        have h3 := nextID_le_run ops (applyOp s op).2
        rw [he] at h3
        have h4 : (Store.insert s p0).2.nextID = s.nextID + 1 := rfl
        have h5 : (Store.insert s p0).1.id = s.nextID := rfl
        rw [hrun, he]
        omega
      · rw [hi] at h1; cases h1
    · have h3 := ih (applyOp s op).2 p h2
      rw [hrun]
      exact h3

/-! ## Small computation lemmas about `Store.insert` -/

theorem insert_fst (s : Store) (p0 : Post) :
    (Store.insert s p0).1 = ⟨s.nextID, p0.body⟩ := rfl

theorem insert_snd_records (s : Store) (p0 : Post) :
    (Store.insert s p0).2.records = mapSet s.records s.nextID ⟨s.nextID, p0.body⟩ := rfl

theorem insert_snd_nextID (s : Store) (p0 : Post) :
    (Store.insert s p0).2.nextID = s.nextID + 1 := rfl

theorem encodePostSlice_some (l : List Post) :
    encodePostSlice (some l) = Json.arr (l.map marshalPost) := rfl

/-! ## Concrete example inputs used by the witnesses -/

/-- The payload of the scenario in the spec: `{"body":"hello"}`. -/
def helloPayload : Json := Json.obj [("body", Json.str "hello")]

/-- The payload `{"body":"world"}`. -/
def worldPayload : Json := Json.obj [("body", Json.str "world")]

/-- A payload that supplies its own id: `{"id":999,"body":"x"}`. -/
def idPayload : Json := Json.obj [("id", Json.num 999), ("body", Json.str "x")]

/-- Two inserts, one delete, one list. -/
def opsExample : List Op :=
  [Op.post (Body.bytes (some helloPayload)), Op.post (Body.bytes (some worldPayload)),
   Op.del 1, Op.getAll]

/-- A store holding one post with id 1. -/
def sExample : Store := ⟨[(1, ⟨1, "a"⟩)], 2⟩

/-! ## The claims -/

/-- C8: encoding a Post to JSON (`{"id": <integer>, "body": <string>}`) and
decoding that JSON back yields a Post with the same id and the same body:
decode after encode is the identity on the pair. -/
theorem marshal_unmarshal_roundtrip (p : Post) :
    unmarshalPost (marshalPost p) = some p := rfl

/-- C9: a POST /posts payload that includes an `"id"` field has it ignored:
the created Post's id is the store's current `nextID`, whatever id the
payload carried, so the 201 response and the stored record show
`s.nextID`, and the counter advances by one. -/
theorem payload_id_ignored (s : Store) (j : Json) (p : Post)
    (h : unmarshalPost j = some p) :
    (handlePostPosts s (Body.bytes (some j))).1.status = 201 ∧
    (handlePostPosts s (Body.bytes (some j))).1.body
      = RespBody.json (marshalPost ⟨s.nextID, p.body⟩) ∧
    mapGet (handlePostPosts s (Body.bytes (some j))).2.records s.nextID
      = some ⟨s.nextID, p.body⟩ ∧
    (handlePostPosts s (Body.bytes (some j))).2.nextID = s.nextID + 1 := by
  refine ⟨?_, ?_, ?_, ?_⟩ <;>
    simp [handlePostPosts, h, Store.insert, marshalPost, mapGet_mapSet_self]

/-- C9 witness: posting `{"id":999,"body":"x"}` to the initial store creates
the post with id 1, not 999. -/
theorem payload_id_ignored_witness :
    (handlePostPosts Store.init (Body.bytes (some idPayload))).1.body
      = RespBody.json (marshalPost ⟨Store.init.nextID, "x"⟩) :=
  (payload_id_ignored Store.init idPayload ⟨999, "x"⟩ rfl).2.1

/-- C10: List on a store whose map is empty responds 200 with the empty
JSON array `[]`, not JSON `null`: the snapshot slice is allocated (only a
nil slice would encode as `null`). -/
theorem list_empty_store (s : Store) (h : s.records = []) :
    (handleGetPosts s).1.status = 200 ∧
    (handleGetPosts s).1.contentType = some jsonCT ∧
    (handleGetPosts s).1.body = RespBody.json (Json.arr []) ∧
    encodePostSlice none = Json.null ∧
    Json.arr [] ≠ Json.null := by
  refine ⟨rfl, rfl, ?_, rfl, ?_⟩
  · simp [handleGetPosts, snapshot, h, encodePostSlice]
  · exact fun hne => Json.noConfusion hne

/-- C10 witness: GET /posts on the initial store returns 200 and `[]`. -/
theorem list_empty_store_witness :
    (handleGetPosts Store.init).1.status = 200 ∧
    (handleGetPosts Store.init).1.body = RespBody.json (Json.arr []) :=
  ⟨(list_empty_store Store.init rfl).1, (list_empty_store Store.init rfl).2.2.1⟩

/-- C4: inserting any body b (the parsed payload may carry any id) yields
the post with id = nextID and body b; a Get of that id on the resulting
state succeeds with 200 and returns exactly that post; and the insert
handler never fails on a payload that unmarshals (it always answers
201). -/
theorem get_after_insert (s : Store) (idArg : Int) (b : String) :
    (Store.insert s ⟨idArg, b⟩).1.id = s.nextID ∧
    (Store.insert s ⟨idArg, b⟩).1.body = b ∧
    mapGet (Store.insert s ⟨idArg, b⟩).2.records s.nextID = some ⟨s.nextID, b⟩ ∧
    (handleGetPost (Store.insert s ⟨idArg, b⟩).2 s.nextID).1.status = 200 ∧
    (handleGetPost (Store.insert s ⟨idArg, b⟩).2 s.nextID).1.body
      = RespBody.json (marshalPost ⟨s.nextID, b⟩) ∧
    (∀ (j : Json) (p : Post), unmarshalPost j = some p →
      (handlePostPosts s (Body.bytes (some j))).1.status = 201) := by
  have hget : mapGet (Store.insert s ⟨idArg, b⟩).2.records s.nextID = some ⟨s.nextID, b⟩ := by
    rw [insert_snd_records]
    exact mapGet_mapSet_self s.records s.nextID ⟨s.nextID, b⟩
  refine ⟨rfl, rfl, hget, ?_, ?_, ?_⟩
  · simp [handleGetPost, hget]
  · simp [handleGetPost, hget, marshalPost]
  · intro j p h
    simp [handlePostPosts, h]

/-- C4 witness: inserting body "hello" into the initial store and getting
id 1 back, plus a 201 from the handler on the `{"body":"hello"}`
payload. -/
theorem get_after_insert_witness :
    (Store.insert Store.init ⟨0, "hello"⟩).1.id = Store.init.nextID ∧
    (handleGetPost (Store.insert Store.init ⟨0, "hello"⟩).2 Store.init.nextID).1.status = 200 ∧
    (handlePostPosts Store.init (Body.bytes (some helloPayload))).1.status = 201 :=
  ⟨(get_after_insert Store.init 0 "hello").1,
   (get_after_insert Store.init 0 "hello").2.2.2.1,
   (get_after_insert Store.init 0 "hello").2.2.2.2.2 helloPayload ⟨0, "hello"⟩ (by decide)⟩

/-- A Get of an absent id answers 404 and leaves the store unchanged. -/
theorem handleGetPost_absent (t : Store) (i : Int) (h : mapGet t.records i = none) :
    handleGetPost t i = (⟨404, some plainCT, RespBody.text "Post not found"⟩, t) := by
  simp [handleGetPost, h]

/-- A Delete of an absent id answers 404 and leaves the store unchanged. -/
theorem handleDeletePost_absent (t : Store) (i : Int) (h : mapGet t.records i = none) :
    handleDeletePost t i = (⟨404, some plainCT, RespBody.text "Post not found"⟩, t) := by
  simp [handleDeletePost, h]

/-- C5: deleting a present id makes an immediately following Get or Delete
of that id answer 404 (the second delete also leaves the state unchanged);
on an absent id, Get and Delete answer 404 and leave the store (records
and nextID) unchanged. -/
theorem delete_then_not_found (s : Store) (i : Int) :
    ((mapGet s.records i).isSome →
      (handleGetPost (handleDeletePost s i).2 i).1.status = 404 ∧
      (handleDeletePost (handleDeletePost s i).2 i).1.status = 404 ∧
      (handleDeletePost (handleDeletePost s i).2 i).2 = (handleDeletePost s i).2) ∧
    (mapGet s.records i = none →
      (handleGetPost s i).1.status = 404 ∧ (handleGetPost s i).2 = s ∧
      (handleDeletePost s i).1.status = 404 ∧ (handleDeletePost s i).2 = s) := by
  constructor
  · intro h
    obtain ⟨p, hp⟩ := Option.isSome_iff_exists.1 h
    have hdel : (handleDeletePost s i).2 = ⟨mapDelete s.records i, s.nextID⟩ := by
      simp [handleDeletePost, hp]
    have hnone : mapGet (handleDeletePost s i).2.records i = none := by
      rw [hdel]
      exact mapGet_mapDelete_self s.records i
    refine ⟨?_, ?_, ?_⟩
    · rw [handleGetPost_absent _ i hnone]
    · rw [handleDeletePost_absent _ i hnone]
    · rw [handleDeletePost_absent _ i hnone]
  · intro h
    rw [handleGetPost_absent s i h, handleDeletePost_absent s i h]
    exact ⟨rfl, rfl, rfl, rfl⟩

/-- C5 witness: in a store holding id 1 only, delete 1 then get/delete 1
give 404; get/delete of the absent id 5 give 404 and change nothing. -/
theorem delete_then_not_found_witness :
    ((handleGetPost (handleDeletePost sExample 1).2 1).1.status = 404 ∧
     (handleDeletePost (handleDeletePost sExample 1).2 1).1.status = 404 ∧
     (handleDeletePost (handleDeletePost sExample 1).2 1).2 = (handleDeletePost sExample 1).2) ∧
    ((handleGetPost sExample 5).1.status = 404 ∧ (handleGetPost sExample 5).2 = sExample ∧
     (handleDeletePost sExample 5).1.status = 404 ∧ (handleDeletePost sExample 5).2 = sExample) :=
  ⟨(delete_then_not_found sExample 1).1 (by decide),
   (delete_then_not_found sExample 5).2 (by decide)⟩

/-- C1: starting from the initial store, under any interleaving of
operations each successful Insert is assigned the current nextID and bumps
nextID by exactly one, and the sequence of assigned ids is strictly
increasing, so no id is ever repeated or reassigned, deletions
notwithstanding. -/
theorem insert_ids_strictly_increasing (ops : List Op) :
    List.Pairwise (fun a b : Int => a < b) (assignedIds Store.init ops) ∧
    (∀ (s : Store) (j : Json) (p : Post), unmarshalPost j = some p →
      (handlePostPosts s (Body.bytes (some j))).2.nextID = s.nextID + 1 ∧
      (handlePostPosts s (Body.bytes (some j))).1.body
        = RespBody.json (marshalPost ⟨s.nextID, p.body⟩)) := by
  constructor
  · unfold assignedIds
    exact (insertedPosts_pairwise ops Store.init).map Post.id (fun a b hab => hab)
  · intro s j p h
    constructor
    · simp [handlePostPosts, h, Store.insert]
    · simp [handlePostPosts, h, Store.insert, marshalPost]

/-- C1 witness: two inserts separated by a delete get ids 1 then 2, and the
first insert bumps nextID from 1 to 2. -/
theorem insert_ids_strictly_increasing_witness :
    List.Pairwise (fun a b : Int => a < b) (assignedIds Store.init opsExample) ∧
    (handlePostPosts Store.init (Body.bytes (some helloPayload))).2.nextID
      = Store.init.nextID + 1 :=
  ⟨(insert_ids_strictly_increasing opsExample).1,
   ((insert_ids_strictly_increasing opsExample).2 Store.init helloPayload ⟨0, "hello"⟩
      (by decide)).1⟩

/-- C2: in every state reachable from the initial store, every key of the
records map equals the id of the post stored under it, and nextID is
strictly greater than every id in the map and every id ever issued along
the run. -/
theorem reachable_store_invariant (ops : List Op) :
    (∀ kv ∈ (run Store.init ops).records,
      kv.1 = kv.2.id ∧ kv.2.id < (run Store.init ops).nextID) ∧
    (∀ i ∈ assignedIds Store.init ops, i < (run Store.init ops).nextID) := by
  constructor
  · exact (inv_run ops Store.init inv_init).1
  · intro i hi
    unfold assignedIds at hi
    rcases List.mem_map.1 hi with ⟨p, hp, rfl⟩
    exact insertedPosts_ub ops Store.init p hp

/-- C2 witness: after the example run the surviving record (2, post 2) has
key = id < nextID, and the issued id 1 is also below nextID. -/
theorem reachable_store_invariant_witness :
    ((2 : Int), (⟨2, "world"⟩ : Post)).1 = (⟨2, "world"⟩ : Post).id ∧
    (⟨2, "world"⟩ : Post).id < (run Store.init opsExample).nextID ∧
    (1 : Int) < (run Store.init opsExample).nextID :=
  ⟨((reachable_store_invariant opsExample).1 (2, ⟨2, "world"⟩) (by decide)).1,
   ((reachable_store_invariant opsExample).1 (2, ⟨2, "world"⟩) (by decide)).2,
   (reachable_store_invariant opsExample).2 1 (by decide)⟩

/-- C3: after any run from the initial store with N successful Inserts and
M successful Deletes, the List snapshot holds exactly N − M posts (in
particular M ≤ N), the List response encodes exactly that snapshot (its
order being whatever the map iteration produced), and every returned post
is one created by the Insert that issued its id, with the body supplied
there. -/
theorem list_snapshot_counts (ops : List Op) :
    (snapshot (run Store.init ops)).length + numDeletes Store.init ops
      = numInserts Store.init ops ∧
    numDeletes Store.init ops ≤ numInserts Store.init ops ∧
    (handleGetPosts (run Store.init ops)).1.body
      = RespBody.json (Json.arr ((snapshot (run Store.init ops)).map marshalPost)) ∧
    (∀ p ∈ snapshot (run Store.init ops), p ∈ insertedPosts Store.init ops) := by
  have hc := count_run ops Store.init inv_init
  have h0 : (Store.init).records.length = 0 := rfl
  have hlen : (snapshot (run Store.init ops)).length = (run Store.init ops).records.length := by
    rw [snapshot, List.length_map]
  refine ⟨?_, ?_, ?_, ?_⟩
  · rw [hlen]
    omega
  · omega
  · rfl
  · intro p hp
    rcases snapshot_run_sub ops Store.init p hp with h | h
    · simp [snapshot, Store.init] at h
    · exact h

/-- C3 witness: the example run (2 inserts, 1 delete) lists exactly one
post, and that post is the one insert "world" created. -/
theorem list_snapshot_counts_witness :
    (snapshot (run Store.init opsExample)).length + numDeletes Store.init opsExample
      = numInserts Store.init opsExample ∧
    (⟨2, "world"⟩ : Post) ∈ insertedPosts Store.init opsExample :=
  ⟨(list_snapshot_counts opsExample).1,
   (list_snapshot_counts opsExample).2.2.2 ⟨2, "world"⟩ (by decide)⟩

/-- C6 counterexample: a POST /posts request whose body is unreadable is
answered with status 500, not 400 as the claim states. -/
theorem unreadable_body_counterexample :
    (handlePostPosts Store.init Body.readError).1.status = 500 ∧
    (handlePostPosts Store.init Body.readError).1.status ≠ 400 := by
  exact ⟨rfl, by decide⟩

/-- C6 (amended): a malformed JSON payload — whether unparsable bytes or a
JSON value that does not unmarshal into a Post — is answered 400 with the
store unchanged; an unreadable request body is answered 500
(InternalServerError), also with the store unchanged; in neither case is a
Post created. -/
theorem bad_post_body_rejected (s : Store) (j : Json) (h : unmarshalPost j = none) :
    (handlePostPosts s Body.readError).1.status = 500 ∧
    (handlePostPosts s Body.readError).2 = s ∧
    (handlePostPosts s (Body.bytes none)).1.status = 400 ∧
    (handlePostPosts s (Body.bytes none)).2 = s ∧
    (handlePostPosts s (Body.bytes (some j))).1.status = 400 ∧
    (handlePostPosts s (Body.bytes (some j))).2 = s := by
  refine ⟨rfl, rfl, rfl, rfl, ?_, ?_⟩ <;> simp [handlePostPosts, h]

/-- C6 witness: the JSON string payload does not unmarshal into a Post, so
it gets 400 and the initial store stays empty; the unreadable body gets
500. -/
theorem bad_post_body_rejected_witness :
    (handlePostPosts Store.init Body.readError).1.status = 500 ∧
    (handlePostPosts Store.init (Body.bytes (some (Json.str "oops")))).1.status = 400 ∧
    (handlePostPosts Store.init (Body.bytes (some (Json.str "oops")))).2 = Store.init :=
  ⟨(bad_post_body_rejected Store.init (Json.str "oops") rfl).1,
   (bad_post_body_rejected Store.init (Json.str "oops") rfl).2.2.2.2.1,
   (bad_post_body_rejected Store.init (Json.str "oops") rfl).2.2.2.2.2⟩

/-- C7 counterexample: a PUT to /posts/abc is answered 400 (the id is
parsed before the method switch), not 405 as the claim states for all id
segments. -/
theorem method_not_allowed_counterexample :
    (postHandler Store.init "PUT" "abc").1.status = 400 ∧
    (postHandler Store.init "PUT" "abc").1.status ≠ 405 := by
  exact ⟨by decide, by decide⟩

/-- C7 (amended): on /posts any method other than GET or POST gets 405; on
/posts/{id} a method other than GET or DELETE gets 405 only when the id
segment parses as an integer — when it does not, the reply is 400
regardless of the method. -/
theorem method_not_allowed_routing (s : Store) (b : Body) (m seg : String) :
    (m ≠ "GET" → m ≠ "POST" → (postsHandler s m b).1.status = 405) ∧
    ((atoi seg).isSome → m ≠ "GET" → m ≠ "DELETE" → (postHandler s m seg).1.status = 405) ∧
    (atoi seg = none → (postHandler s m seg).1.status = 400) := by
  refine ⟨?_, ?_, ?_⟩
  · intro h1 h2
    simp [postsHandler, h1, h2]
  · intro hs h1 h2
    obtain ⟨i, hi⟩ := Option.isSome_iff_exists.1 hs
    simp [postHandler, hi, h1, h2]
  · intro h
    simp [postHandler, h]

/-- C7 witness: PUT /posts gets 405, PUT /posts/7 gets 405, PUT /posts/abc
gets 400. -/
theorem method_not_allowed_routing_witness :
    (postsHandler Store.init "PUT" Body.readError).1.status = 405 ∧
    (postHandler Store.init "PUT" "7").1.status = 405 ∧
    (postHandler Store.init "PUT" "abc").1.status = 400 :=
  ⟨(method_not_allowed_routing Store.init Body.readError "PUT" "7").1
      (by decide) (by decide),
   (method_not_allowed_routing Store.init Body.readError "PUT" "7").2.1
      (by decide) (by decide) (by decide),
   (method_not_allowed_routing Store.init Body.readError "PUT" "abc").2.2 (by decide)⟩

end WebServer
